import Mathlib

set_option maxRecDepth 100000

/-!
Verification development for the Chalawa encryption-in-transit library
(TypeScript backend `src/encryption.ts`, `src/decryption.ts`,
`src/dh-encryption.ts`, `src/diffie-hellman.ts`, and the Dart frontend
`lib/src/diffie_hellman.dart`, `lib/src/encryption.dart`,
`lib/src/dh_encryption.dart`).

Strings of the source languages are embedded as `List Char`; byte buffers as
`List ℕ` with every byte `< 256`.  Platform-library primitives that the
source calls (`createHash`, the AES-256-GCM cipher, `Buffer` codecs,
`int.parse`, `BigInt.modPow`) are modelled by executable Lean functions whose
doc comments state exactly which library call they stand for and which of its
documented properties the development relies on.  Everything written in the
repository itself is translated line by line.
-/

/-- Value of a hexadecimal digit character (`0`-`9`, `a`-`f`, `A`-`F`),
as accepted by Node's hex codec, Dart's `int.parse(radix: 16)` and
`BigInt.parse(radix: 16)`. -/
def hexDigVal (c : Char) : Option ℕ :=
  let n := c.toNat
  if 48 ≤ n ∧ n ≤ 57 then some (n - 48)
  else if 97 ≤ n ∧ n ≤ 102 then some (n - 87)
  else if 65 ≤ n ∧ n ≤ 70 then some (n - 55)
  else none

/-- Lowercase digit character for a value `< 16` (also used for base 10),
as produced by `toString`/`toRadixString(16)`/Dart `Digest.toString()`. -/
def digitChar (n : ℕ) : Char :=
  if n < 10 then Char.ofNat (48 + n) else Char.ofNat (87 + n)

/-- Digits of `n` in the given base, most significant first, by repeated
division; `fuel` bounds the recursion and any `fuel ≥ n` is enough. -/
def natDigitsAux (base : ℕ) : ℕ → ℕ → List Char
  | 0, _ => []
  | fuel + 1, n =>
    if n < base then [digitChar n]
    else natDigitsAux base fuel (n / base) ++ [digitChar (n % base)]

/-- Model of `BigInt.toRadixString(16)` (Dart `_bigIntToHex`) and of
`Buffer.toString('hex')` on a minimal big-endian encoding: lowercase
hexadecimal, no leading zeros, `"0"` for zero. -/
def natToHex (n : ℕ) : List Char := natDigitsAux 16 (n + 1) n

/-- Model of `toString()` on a non-negative integer (used for
`Date.now().toString()` / `millisecondsSinceEpoch.toString()`). -/
def natToDec (n : ℕ) : List Char := natDigitsAux 10 (n + 1) n

/-- Accumulator loop of hexadecimal string parsing. -/
def hexParseGo (acc : ℕ) : List Char → Option ℕ
  | [] => some acc
  | c :: r =>
    match hexDigVal c with
    | some d => hexParseGo (16 * acc + d) r
    | none => none

/-- Model of `BigInt.parse(s, radix: 16)` on unsigned input (Dart
`_hexToBigInt`): fails on the empty string or on any non-hex character. -/
def hexParse (s : List Char) : Option ℕ :=
  if s.isEmpty then none else hexParseGo 0 s

/-- Hex encoding of a byte list, two lowercase digits per byte — the format
of Dart `Digest.toString()` and Node `digest('hex')`. -/
def bytesToHex (bs : List ℕ) : List Char :=
  bs.flatMap (fun b => [digitChar (b / 16), digitChar (b % 16)])

/-- Accumulator loop reading a byte list as a big-endian natural number. -/
def bytesToNatGo (acc : ℕ) : List ℕ → ℕ
  | [] => acc
  | b :: r => bytesToNatGo (256 * acc + b) r

/-- Big-endian interpretation of a byte list as a natural number, the way
Node's DH reads a private-key `Buffer`. -/
def bytesToNat (bs : List ℕ) : ℕ := bytesToNatGo 0 bs

/-- UTF-8 bytes of one unicode scalar value. -/
def utf8Char (c : Char) : List ℕ :=
  let n := c.toNat
  if n < 128 then [n]
  else if n < 2048 then [192 + n / 64, 128 + n % 64]
  else if n < 65536 then [224 + n / 4096, 128 + (n / 64) % 64, 128 + n % 64]
  else [240 + n / 262144, 128 + (n / 4096) % 64, 128 + (n / 64) % 64, 128 + n % 64]

/-- Model of UTF-8 encoding of a string (`utf8.encode`, Node's `'utf-8'`
buffer conversions). -/
def utf8Encode (s : List Char) : List ℕ := s.flatMap utf8Char

/-- One byte of the digest model: a fold over the whole message seeded per
output position and per algorithm tag. -/
def digestByte (tag : ℕ) (msg : List ℕ) (i : ℕ) : ℕ :=
  (msg.foldl (fun a b => a * 65599 + b + 1) (tag + i * 2654435761 + 1)) % 256

/-- Model of the SHA-256 primitive of the platform crypto libraries
(Node `createHash('sha256')`, Dart `sha256.convert`): an executable
stand-in with the interface properties the repository relies on — a
deterministic function of the input byte sequence returning exactly 32
bytes.  The claims settled here concern the protocol built around the hash,
never the compression function itself. -/
def sha256Bytes (msg : List ℕ) : List ℕ :=
  (List.range 32).map (digestByte 2 msg)

/-- Model of the SHA-512 primitive of the platform crypto libraries
(Node `createHash('sha512')`, Dart `sha512.convert`): deterministic,
returning exactly 64 bytes; see `sha256Bytes`. -/
def sha512Bytes (msg : List ℕ) : List ℕ :=
  (List.range 64).map (digestByte 5 msg)

/-- Model of modular exponentiation (`BigInt.modPow`, the exponentiation
inside Node's `DiffieHellman`): `b ^ e` reduced modulo `m`. -/
def modPow (b e m : ℕ) : ℕ := b ^ e % m

/-- The RFC 5114 2048-bit MODP group prime as written in
`src/diffie-hellman.ts` (`PRIME_2048`) and `lib/src/diffie_hellman.dart`
(`_prime2048`), whitespace removed. -/
def prime2048Hex : List Char := String.data (
  "FFFFFFFFFFFFFFFFC90FDAA22168C234C4C6628B80DC1CD1" ++
  "29024E088A67CC74020BBEA63B139B22514A08798E3404DD" ++
  "EF9519B3CD3A431B302B0A6DF25F14374FE1356D6D51C245" ++
  "E485B576625E7EC6F44C42E9A637ED6B0BFF5CB6F406B7ED" ++
  "EE386BFB5A899FA5AE9F24117C4B1FE649286651ECE45B3D" ++
  "C2007CB8A163BF0598DA48361C55D39A69163FA8FD24CF5F" ++
  "83655D23DCA3AD961C62F356208552BB9ED529077096966D" ++
  "670C354E4ABC9804F1746C08CA18217C32905E462E36CE3B" ++
  "E39E772C180E86039B2783A2EC07A28FB5C55DF06F4C52C9" ++
  "DE2BCBF6955817183995497CEA956AE515D2261898FA0510" ++
  "15728E5A8AACAA68FFFFFFFFFFFFFFFF")

/-- The group prime as a natural number. -/
def dhPrime : ℕ := (hexParse prime2048Hex).getD 0

/-- The group generator, `GENERATOR = 2` / `_generator = 2`. -/
def dhGenerator : ℕ := 2

/-- The standard base64 alphabet in order, as used by Node
`Buffer.toString('base64')` and Dart `base64.encode`. -/
def b64AlphabetChars : List Char :=
  "ABCDEFGHIJKLMNOPQRSTUVWXYZabcdefghijklmnopqrstuvwxyz0123456789+/".data

/-- Character for a 6-bit value. -/
def b64Char (v : ℕ) : Char := b64AlphabetChars.getD v 'A'

/-- 6-bit value of a base64 alphabet character, `none` for anything else
(including the padding character). -/
def b64Val (c : Char) : Option ℕ := b64AlphabetChars.indexOf? c

/-- The 6-bit groups of a byte list, chunked in threes with a short final
group, per the base64 layout. -/
def b64Vals : List ℕ → List ℕ
  | b0 :: b1 :: b2 :: rest =>
    b0 / 4 :: ((b0 % 4) * 16 + b1 / 16) :: ((b1 % 16) * 4 + b2 / 64) :: b2 % 64 :: b64Vals rest
  | [b0, b1] => [b0 / 4, (b0 % 4) * 16 + b1 / 16, (b1 % 16) * 4]
  | [b0] => [b0 / 4, (b0 % 4) * 16]
  | [] => []

/-- Model of standard padded base64 encoding (Node `toString('base64')`,
Dart `base64.encode`). -/
def base64Encode (bs : List ℕ) : List Char :=
  (b64Vals bs).map b64Char ++ List.replicate ((3 - bs.length % 3) % 3) '='

/-- Reassembles bytes from a list of 6-bit values, dropping any trailing
group of fewer than 8 bits — the forgiving completion used by Node. -/
def b64Bytes : List ℕ → List ℕ
  | a :: b :: c :: d :: rest =>
    (a * 4 + b / 16) :: ((b % 16) * 16 + c / 4) :: ((c % 4) * 64 + d) :: b64Bytes rest
  | [a, b, c] => [a * 4 + b / 16, (b % 16) * 16 + c / 4]
  | [a, b] => [a * 4 + b / 16]
  | _ => []

/-- Model of Node's lenient base64 decoding (`Buffer.from(s, 'base64')`,
`decipher.update(s, 'base64')`): characters outside the alphabet (padding
included) are skipped, and trailing bits that do not fill a byte are
discarded.  It never fails. -/
def nodeB64Decode (s : List Char) : List ℕ := b64Bytes (s.filterMap b64Val)

/-- Splits a character list on a separator character, the semantics of
JavaScript `split(":")` and Dart `split(':')` (no empty-segment merging,
a final separator yields a trailing empty segment). -/
def splitOnChar (sep : Char) : List Char → List (List Char)
  | [] => [[]]
  | c :: rest =>
    if c = sep then [] :: splitOnChar sep rest
    else
      match splitOnChar sep rest with
      | [] => [[c]]
      | p :: ps => (c :: p) :: ps

/-- Keystream byte `i` of the cipher model for a given key and IV. -/
def ksByte (key iv : List ℕ) (i : ℕ) : ℕ :=
  ((key.foldl (fun a b => a * 257 + b + 1) 5) * 1000003 +
   (iv.foldl (fun a b => a * 257 + b + 1) 7) * 8191 +
   i * 2654435761 + 1) % 256

/-- XOR of a byte list with the keystream starting at position `i`; applying
it twice restores the input, as for any stream cipher. -/
def xorStream (key iv : List ℕ) : ℕ → List ℕ → List ℕ
  | _, [] => []
  | i, b :: bs => (b ^^^ ksByte key iv i) :: xorStream key iv (i + 1) bs

/-- The 16-byte authentication tag of the cipher model, a keyed digest of
the ciphertext. -/
def gcmTag (key iv ct : List ℕ) : List ℕ :=
  (List.range 16).map (fun j =>
    (ct.foldl (fun a b => a * 65599 + b + 1) (ksByte key iv (j + 4096) + j * 131071 + 3)) % 256)

/-- Model of AES-256-GCM encryption as called by the repository
(`createCipheriv('aes-256-gcm', key, iv)` / pointycastle `GCMBlockCipher`):
a keyed length-preserving stream transformation.  The internals of AES are
not the subject of any claim here; the model keeps exactly the documented
interface properties the source relies on: the ciphertext determines the
plaintext given the same key and IV, and the 128-bit tag is a function of
key, IV and ciphertext. -/
def gcmEncryptBytes (key iv pt : List ℕ) : List ℕ := xorStream key iv 0 pt

/-- Model of AES-256-GCM decryption with tag verification
(`decipher.setAuthTag(tag)` followed by `update`/`final`): fails — as the
library call throws — exactly when the supplied tag differs from the tag of
the ciphertext under this key and IV. -/
def gcmDecrypt (key iv ct tag : List ℕ) : Option (List ℕ) :=
  if tag = gcmTag key iv ct then some (xorStream key iv 0 ct) else none

/-- Whether a byte is a UTF-8 continuation byte. -/
def contByte (b : ℕ) : Bool := 128 ≤ b ∧ b < 192

/-- The scalar value decoded at a position of a byte stream: first byte `b`,
following bytes `rest`; U+FFFD for an ill-formed first byte or missing
continuation bytes. -/
def utf8CharAt (b : ℕ) (rest : List ℕ) : Char :=
  if b < 128 then Char.ofNat b
  else if 192 ≤ b ∧ b < 224 then
    match rest with
    | b1 :: _ => if contByte b1 then Char.ofNat ((b - 192) * 64 + (b1 - 128)) else Char.ofNat 65533
    | _ => Char.ofNat 65533
  else if 224 ≤ b ∧ b < 240 then
    match rest with
    | b1 :: b2 :: _ =>
      if contByte b1 ∧ contByte b2 then
        Char.ofNat ((b - 224) * 4096 + (b1 - 128) * 64 + (b2 - 128))
      else Char.ofNat 65533
    | _ => Char.ofNat 65533
  else if 240 ≤ b ∧ b < 248 then
    match rest with
    | b1 :: b2 :: b3 :: _ =>
      if contByte b1 ∧ contByte b2 ∧ contByte b3 then
        Char.ofNat ((b - 240) * 262144 + (b1 - 128) * 4096 + (b2 - 128) * 64 + (b3 - 128))
      else Char.ofNat 65533
    | _ => Char.ofNat 65533
  else Char.ofNat 65533

/-- How many continuation bytes the decoder consumes after first byte `b`
(zero when the position is ill-formed and only the offending byte is
replaced). -/
def utf8Extra (b : ℕ) (rest : List ℕ) : ℕ :=
  if b < 128 then 0
  else if 192 ≤ b ∧ b < 224 then
    match rest with
    | b1 :: _ => if contByte b1 then 1 else 0
    | _ => 0
  else if 224 ≤ b ∧ b < 240 then
    match rest with
    | b1 :: b2 :: _ => if contByte b1 ∧ contByte b2 then 2 else 0
    | _ => 0
  else if 240 ≤ b ∧ b < 248 then
    match rest with
    | b1 :: b2 :: b3 :: _ => if contByte b1 ∧ contByte b2 ∧ contByte b3 then 3 else 0
    | _ => 0
  else 0

/-- Fuel-driven loop of the lossy UTF-8 decoder; the fuel falls by one per
decoded position, so the input length always suffices. -/
def utf8DecodeLossyGo : ℕ → List ℕ → List Char
  | 0, _ => []
  | _ + 1, [] => []
  | fuel + 1, b :: rest =>
    utf8CharAt b rest :: utf8DecodeLossyGo fuel (rest.drop (utf8Extra b rest))

/-- Model of Node's `'utf-8'` output conversion (`decipher.update(.., 'base64',
'utf-8')`, `Buffer.toString('utf-8')`): total, decoding well-formed sequences
positionally and substituting U+FFFD for ill-formed bytes, as the library
does. -/
def utf8DecodeLossy (bs : List ℕ) : List Char := utf8DecodeLossyGo bs.length bs

/-- JSON values as returned by `JSON.parse` / Dart `jsonDecode`.  Numeric
literals are kept as their raw token: no claim here depends on numeric
semantics, only on which texts parse. -/
inductive Json where
  | null : Json
  | bool (b : Bool) : Json
  | num (raw : List Char) : Json
  | str (s : List Char) : Json
  | arr (elems : List Json) : Json
  | obj (members : List (List Char × Json)) : Json

/-- JSON insignificant whitespace. -/
def jsonWs (c : Char) : Bool := c = ' ' ∨ c = Char.ofNat 9 ∨ c = Char.ofNat 10 ∨ c = Char.ofNat 13

/-- Drops leading JSON whitespace. -/
def skipWs (s : List Char) : List Char := s.dropWhile jsonWs

/-- Fuel-driven loop reading the remainder of a JSON string literal (the
opening quote already consumed); each step consumes at least one input
character, so fuel equal to the input length suffices. -/
def parseJsonStringGo : ℕ → List Char → Option (List Char × List Char)
  | 0, _ => none
  | _ + 1, [] => none
  | fuel + 1, c :: rest =>
    if c = '"' then some ([], rest)
    else if c = '\\' then
      match rest with
      | [] => none
      | e :: r2 =>
        if e = '"' ∨ e = '\\' ∨ e = '/' then
          (parseJsonStringGo fuel r2).map (fun p => (e :: p.1, p.2))
        else if e = 'b' then (parseJsonStringGo fuel r2).map (fun p => (Char.ofNat 8 :: p.1, p.2))
        else if e = 'f' then (parseJsonStringGo fuel r2).map (fun p => (Char.ofNat 12 :: p.1, p.2))
        else if e = 'n' then (parseJsonStringGo fuel r2).map (fun p => (Char.ofNat 10 :: p.1, p.2))
        else if e = 'r' then (parseJsonStringGo fuel r2).map (fun p => (Char.ofNat 13 :: p.1, p.2))
        else if e = 't' then (parseJsonStringGo fuel r2).map (fun p => (Char.ofNat 9 :: p.1, p.2))
        else if e = 'u' then
          match r2 with
          | h1 :: h2 :: h3 :: h4 :: r3 =>
            match hexDigVal h1, hexDigVal h2, hexDigVal h3, hexDigVal h4 with
            | some a, some b, some c2, some d =>
              (parseJsonStringGo fuel r3).map
                (fun p => (Char.ofNat (4096 * a + 256 * b + 16 * c2 + d) :: p.1, p.2))
            | _, _, _, _ => none
          | _ => none
        else none
    else if c.toNat < 32 then none
    else (parseJsonStringGo fuel rest).map (fun p => (c :: p.1, p.2))

/-- Parses the remainder of a JSON string literal (the opening quote already
consumed), returning its contents and the rest of the input. -/
def parseJsonString (s : List Char) : Option (List Char × List Char) :=
  parseJsonStringGo s.length s

/-- Characters that can occur in a JSON number token. -/
def numTokenChar (c : Char) : Bool :=
  c.isDigit ∨ c = '-' ∨ c = '+' ∨ c = '.' ∨ c = 'e' ∨ c = 'E'

/-- Whether a list starts with a decimal digit. -/
def startsWithDigit (s : List Char) : Bool :=
  match s with
  | c :: _ => c.isDigit
  | [] => false

/-- Validity of a JSON number token per the JSON grammar. -/
def jsonNumberOk (tok : List Char) : Bool :=
  let s0 := match tok with | '-' :: r => r | _ => tok
  let leadOk := match s0 with
    | '0' :: c :: _ => !(c.isDigit)
    | _ => true
  if ¬ startsWithDigit s0 then false else
  let s1 := s0.dropWhile Char.isDigit
  let fracRes : Option (List Char) := match s1 with
    | '.' :: r => if startsWithDigit r then some (r.dropWhile Char.isDigit) else none
    | _ => some s1
  match fracRes with
  | none => false
  | some s2 =>
    let expRes : Option (List Char) := match s2 with
      | c :: r =>
        if c = 'e' ∨ c = 'E' then
          let r2 := match r with | s :: rr => if s = '+' ∨ s = '-' then rr else r | [] => r
          if startsWithDigit r2 then some (r2.dropWhile Char.isDigit) else none
        else some s2
      | [] => some s2
    match expRes with
    | none => false
    | some s3 => leadOk && s3.isEmpty

/-- The three states of the JSON reader: reading one value, reading the
items of an array after its opening bracket, or reading the members of an
object after its opening brace (the accumulators hold what was read so
far, reversed). -/
inductive PMode where
  | value : PMode
  | arrItems : List Json → PMode
  | objItems : List (List Char × Json) → PMode

/-- Fuel-indexed JSON reader covering the three modes of `PMode`; returns
the parsed value and the remaining input.  `length + 1` fuel always
suffices for the inputs evaluated in this development. -/
def parseJV : ℕ → PMode → List Char → Option (Json × List Char)
  | 0, _, _ => none
  | fuel + 1, .value, s =>
    match skipWs s with
    | [] => none
    | c :: rest =>
      if c = '"' then (parseJsonString rest).map (fun p => (Json.str p.1, p.2))
      else if c = 't' then
        match rest with
        | 'r' :: 'u' :: 'e' :: r2 => some (Json.bool true, r2)
        | _ => none
      else if c = 'f' then
        match rest with
        | 'a' :: 'l' :: 's' :: 'e' :: r2 => some (Json.bool false, r2)
        | _ => none
      else if c = 'n' then
        match rest with
        | 'u' :: 'l' :: 'l' :: r2 => some (Json.null, r2)
        | _ => none
      else if c = '[' then
        match skipWs rest with
        | ']' :: r2 => some (Json.arr [], r2)
        | _ => parseJV fuel (.arrItems []) rest
      else if c = Char.ofNat 123 then
        match skipWs rest with
        | r0 =>
          if r0.headD ' ' = Char.ofNat 125 then some (Json.obj [], r0.tail)
          else parseJV fuel (.objItems []) rest
      else if c.isDigit ∨ c = '-' then
        let tok := (c :: rest).takeWhile numTokenChar
        if jsonNumberOk tok then some (Json.num tok, (c :: rest).dropWhile numTokenChar)
        else none
      else none
  | fuel + 1, .arrItems acc, s =>
    match parseJV fuel .value s with
    | none => none
    | some (v, rest) =>
      match skipWs rest with
      | ',' :: r2 => parseJV fuel (.arrItems (v :: acc)) r2
      | ']' :: r2 => some (Json.arr (v :: acc).reverse, r2)
      | _ => none
  | fuel + 1, .objItems acc, s =>
    match skipWs s with
    | '"' :: r1 =>
      match parseJsonString r1 with
      | none => none
      | some (k, r2) =>
        match skipWs r2 with
        | ':' :: r3 =>
          match parseJV fuel .value r3 with
          | none => none
          | some (v, r4) =>
            match skipWs r4 with
            | ',' :: r5 => parseJV fuel (.objItems ((k, v) :: acc)) r5
            | c :: r5 =>
              if c = Char.ofNat 125 then some (Json.obj ((k, v) :: acc).reverse, r5) else none
            | [] => none
        | _ => none
    | _ => none

/-- Model of `JSON.parse` / Dart `jsonDecode`: parses one JSON value and
requires only whitespace to remain; `none` models the thrown
`SyntaxError`/`FormatException`. -/
def jsonParse (s : List Char) : Option Json :=
  match parseJV (s.length + 1) .value s with
  | some (v, rest) => if (skipWs rest).isEmpty then some v else none
  | none => none

/-- Error kinds of the AEAD codec, per the error-handling design: wrong
colon count, tag mismatch, and a failing final `JSON.parse`.  Node's lenient
base64 codec never fails, so no decode error arises in the backend
`decrypt`. -/
inductive CipherError where
  | FormatError : CipherError
  | AuthenticationError : CipherError
  | JsonError : CipherError
deriving DecidableEq

/-- Key derivation of `src/encryption.ts` / `src/decryption.ts`:
`genHash = sha512(utf8(password)).digest('hex')`, then
`key = genHash.substring(0, 32)`, used as `Buffer.from(key)` — the UTF-8
bytes of the first 32 hex characters. -/
def keyFromPassword (password : List Char) : List ℕ :=
  let genHash := bytesToHex (sha512Bytes (utf8Encode password))
  utf8Encode (genHash.take 32)

/-- Model of Node's lenient hex reading (`hash.update(s, 'hex')`,
`Buffer.from(s, 'hex')`): decodes two-digit pairs left to right and stops at
the first pair that is not two hex digits (a trailing odd digit included);
it never fails. -/
def nodeHexBytes : List Char → List ℕ
  | c1 :: c2 :: r =>
    match hexDigVal c1, hexDigVal c2 with
    | some a, some b => (16 * a + b) :: nodeHexBytes r
    | _, _ => []
  | _ => []

/-- Key derivation of `src/dh-encryption.ts`: as `keyFromPassword` but the
secret material is the hex-decoded shared-secret string
(`hash.update(sharedSecret, 'hex')`). -/
def keyFromSecret (sharedSecret : List Char) : List ℕ :=
  let genHash := bytesToHex (sha512Bytes (nodeHexBytes sharedSecret))
  utf8Encode (genHash.take 32)

/-- First segment of the `encrypt` output of `src/encryption.ts`: the
base64 ciphertext of the UTF-8 plaintext bytes (the backend applies no JSON
serialization before encrypting). -/
def ctSegment (plainText password : List Char) (iv : List ℕ) : List Char :=
  base64Encode (gcmEncryptBytes (keyFromPassword password) iv (utf8Encode plainText))

/-- Second segment of the `encrypt` output: the base64 IV. -/
def ivSegment (iv : List ℕ) : List Char := base64Encode iv

/-- Third segment of the `encrypt` output: the base64 GCM tag. -/
def tagSegment (plainText password : List Char) (iv : List ℕ) : List Char :=
  base64Encode (gcmTag (keyFromPassword password) iv
    (gcmEncryptBytes (keyFromPassword password) iv (utf8Encode plainText)))

/-- Embedding of `encrypt` from `src/encryption.ts`.  The 16 random bytes
drawn by `randomBytes(16)` are passed explicitly as `iv`.  Returns
`encrypted + ":" + base64(iv) + ":" + base64(authTag)`. -/
def encrypt (plainText password : List Char) (iv : List ℕ) : List Char :=
  ctSegment plainText password iv ++ ':' :: ivSegment iv ++ ':' :: tagSegment plainText password iv

/-- Embedding of `decrypt` from `src/decryption.ts` up to and including the
authenticated decipher, before the final `JSON.parse`: derive the key from
the password, split on `":"` requiring exactly three parts, base64-decode
the parts, and run the tag-checked decryption, decoding the result as
UTF-8 text. -/
def decryptToText (encryptedText password : List Char) : Except CipherError (List Char) :=
  let key := keyFromPassword password
  match splitOnChar ':' encryptedText with
  | [ct64, iv64, tag64] =>
    let iv := nodeB64Decode iv64
    let authTag := nodeB64Decode tag64
    match gcmDecrypt key iv (nodeB64Decode ct64) authTag with
    | some ptBytes => .ok (utf8DecodeLossy ptBytes)
    | none => .error .AuthenticationError
  | _ => .error .FormatError

/-- Embedding of `decrypt` from `src/decryption.ts`: `decryptToText`
followed by `JSON.parse(decrypted)`. -/
def decrypt (encryptedText password : List Char) : Except CipherError Json :=
  match decryptToText encryptedText password with
  | .ok text =>
    match jsonParse text with
    | some v => .ok v
    | none => .error .JsonError
  | .error e => .error e

/-- Embedding of `dhEncrypt` from `src/dh-encryption.ts`: as `encrypt` with
the key derived from the hex shared secret; the plaintext is again encrypted
as raw UTF-8 with no JSON serialization. -/
def dhEncrypt (plainText sharedSecret : List Char) (iv : List ℕ) : List Char :=
  base64Encode (gcmEncryptBytes (keyFromSecret sharedSecret) iv (utf8Encode plainText)) ++
  ':' :: base64Encode iv ++
  ':' :: base64Encode (gcmTag (keyFromSecret sharedSecret) iv
    (gcmEncryptBytes (keyFromSecret sharedSecret) iv (utf8Encode plainText)))

/-- Embedding of `dhDecrypt` from `src/dh-encryption.ts`. -/
def dhDecrypt (encryptedText sharedSecret : List Char) : Except CipherError Json :=
  let key := keyFromSecret sharedSecret
  match splitOnChar ':' encryptedText with
  | [ct64, iv64, tag64] =>
    match gcmDecrypt key (nodeB64Decode iv64) (nodeB64Decode ct64) (nodeB64Decode tag64) with
    | some ptBytes =>
      match jsonParse (utf8DecodeLossy ptBytes) with
      | some v => .ok v
      | none => .error .JsonError
    | none => .error .AuthenticationError
  | _ => .error .FormatError

/-- Value of one two-character chunk of Dart `_hexToBytes`, which calls
`int.parse(hex.substring(i, i + 2), radix: 16)` and stores the result into a
`Uint8List`.  Per the Dart SDK, `int.parse` accepts an optional leading
`-` or `+` sign before the base-16 digits, and a `Uint8List` store keeps the
low 8 bits of the (possibly negative) value, i.e. the value mod 256. -/
def dartHexPairVal (c1 c2 : Char) : Option ℕ :=
  if c1 = '-' then (hexDigVal c2).map (fun v => (256 - v) % 256)
  else if c1 = '+' then hexDigVal c2
  else
    match hexDigVal c1, hexDigVal c2 with
    | some a, some b => some (16 * a + b)
    | _, _ => none

/-- Pair loop of Dart `_hexToBytes` over an even-length character list. -/
def dartHexPairsGo : List Char → Option (List ℕ)
  | c1 :: c2 :: r =>
    match dartHexPairVal c1 c2, dartHexPairsGo r with
    | some v, some vs => some (v :: vs)
    | _, _ => none
  | [_] => none
  | [] => some []

/-- Embedding of Dart `_hexToBytes` (`lib/src/diffie_hellman.dart`,
`lib/src/dh_encryption.dart`): left-pads an odd-length input with `'0'`,
then parses consecutive two-character chunks with `int.parse(radix: 16)`;
`none` models the thrown `FormatException`. -/
def dartHexToBytes (s : List Char) : Option (List ℕ) :=
  dartHexPairsGo (if s.length % 2 = 1 then '0' :: s else s)

/-- Error kind of the Dart DH operations: the only failure the embedded
`computeSharedSecret` can hit is a failing hex parse of one of its key
strings (rethrown by the source as a generic `Exception`). -/
inductive DHError where
  | ParseFailure : DHError
deriving DecidableEq

/-- Embedding of `computeSharedSecret` from `lib/src/diffie_hellman.dart`:
parse both keys as hex big integers, compute
`sharedSecret = otherPublicKey.modPow(privateKey, prime)`, hex-decode its
hex form back to bytes, and hash — SHA-512 over the bytes followed by the
UTF-8 password when a password is given, SHA-256 over the bytes otherwise —
returning the lowercase hex digest.  The source performs no range check on
either key. -/
def computeSharedSecret (privateKey otherPublicKey : List Char)
    (password : Option (List Char)) : Except DHError (List Char) :=
  match hexParse privateKey, hexParse otherPublicKey with
  | some a, some bPub =>
    let sharedSecret := modPow bPub a dhPrime
    let sharedSecretBytes := (dartHexToBytes (natToHex sharedSecret)).getD []
    match password with
    | some pw => .ok (bytesToHex (sha512Bytes (sharedSecretBytes ++ utf8Encode pw)))
    | none => .ok (bytesToHex (sha256Bytes sharedSecretBytes))
  | _, _ => .error .ParseFailure

/-- Whether an `Except` result is a success. -/
def exceptOk {ε α : Type} : Except ε α → Bool
  | .ok _ => true
  | .error _ => false

/-- Embedding of `validatePublicKey` from `lib/src/diffie_hellman.dart`:
hex-decode via `_hexToBytes` and check `100 < length < 1000`; any thrown
parse error is caught and yields `false`. -/
def validatePublicKey (publicKey : List Char) : Bool :=
  match dartHexToBytes publicKey with
  | some keyBytes => decide (100 < keyBytes.length) && decide (keyBytes.length < 1000)
  | none => false

/-- A DH key pair of hex strings, as in `types.ts` / `types.dart`. -/
structure DHKeyPair where
  privateKey : List Char
  publicKey : List Char
deriving DecidableEq

/-- The private-key bytes Dart feeds into the enhancement hash:
`_hexToBytes(_bigIntToHex(privateKey))`. -/
def dartPrivBytes (privateKey : ℕ) : List ℕ :=
  (dartHexToBytes (natToHex privateKey)).getD []

/-- Embedding of the password branch of `generateDHKeyPair` from
`lib/src/diffie_hellman.dart`, parametrized by the accepted random private
key draw and the current time in milliseconds:
`passwordHash = sha256(utf8(password + time))`;
`enhanced = sha256(privateKeyBytes ++ passwordHash.bytes)`;
`enhancedPrivateKey = parse(enhanced.toString().substring(0, 64), 16)`;
`validPrivateKey = enhancedPrivateKey % (prime - 1) + 1`; public key
recomputed as `generator.modPow(validPrivateKey, prime)`. -/
def generateDHKeyPairEnhanced (privateKey : ℕ) (password : List Char)
    (timeMillis : ℕ) : DHKeyPair :=
  let passwordHash := sha256Bytes (utf8Encode (password ++ natToDec timeMillis))
  let combined := dartPrivBytes privateKey ++ passwordHash
  let enhancedHash := bytesToHex (sha256Bytes combined)
  let enhancedPrivateKey := (hexParse (enhancedHash.take 64)).getD 0
  let validPrivateKey := enhancedPrivateKey % (dhPrime - 1) + 1
  { privateKey := natToHex validPrivateKey
    publicKey := natToHex (modPow dhGenerator validPrivateKey dhPrime) }

/-- Embedding of the password branch of `generateDHKeyPair` from
`src/diffie-hellman.ts`, parametrized by the bytes of the randomly drawn
private key and the current time: the SHA-256 digest
`sha256(privateKey ++ sha256(utf8(password + time)))` is itself installed as
the private key (`enhancedDH.setPrivateKey(enhancedPrivateKey)`) with no
reduction modulo `prime - 1`, and the public key is the generator raised to
the digest read as a big-endian integer. -/
def nodeGenerateDHKeyPairEnhanced (privateKeyBytes : List ℕ) (password : List Char)
    (timeMillis : ℕ) : DHKeyPair :=
  let passwordHash := sha256Bytes (utf8Encode (password ++ natToDec timeMillis))
  let enhancedPrivateKey := sha256Bytes (privateKeyBytes ++ passwordHash)
  { privateKey := bytesToHex enhancedPrivateKey
    publicKey := natToHex (modPow dhGenerator (bytesToNat enhancedPrivateKey) dhPrime) }

/-- A fixed 16-byte IV standing for one concrete draw of `randomBytes(16)` /
`Random.secure()` in the concrete evaluations below. -/
def testIV : List ℕ := [0, 1, 2, 3, 4, 5, 6, 7, 8, 9, 10, 11, 12, 13, 14, 15]

/-- Replaces the character at index `i` by the character whose code differs
in bit `k` — the formal rendering of a single-bit flip inside a string. -/
def flipBitAt (i k : ℕ) : List Char → List Char
  | [] => []
  | c :: r => if i = 0 then Char.ofNat (c.toNat ^^^ 2 ^ k) :: r else c :: flipBitAt (i - 1) k r

/-- A single-bit flip applied inside the auth-tag segment of a CipherText:
split on `':'`, flip bit `k` of character `i` of the third segment,
reassemble. -/
def flipTagBit (s : List Char) (i k : ℕ) : List Char :=
  match splitOnChar ':' s with
  | [a, b, t] => a ++ ':' :: b ++ ':' :: flipBitAt i k t
  | _ => s

/-- Characters that can contribute to a successful Dart `_hexToBytes` parse:
hex digits and the signs `int.parse` accepts. -/
def isHexLikeChar (c : Char) : Bool := (hexDigVal c).isSome || c = '-' || c = '+'

/-- Whether a string consists only of hexadecimal digits — the plain
reading of a "hex input". -/
def isHexString (s : List Char) : Bool := s.all (fun c => (hexDigVal c).isSome)

/-- Whether a byte is the ASCII code of a lowercase hex digit. -/
def isHexDigitByte (b : ℕ) : Bool := (48 ≤ b && b ≤ 57) || (97 ≤ b && b ≤ 102)

/- ### Round-trip lemmas for the numeric codecs -/

theorem hexDigVal_digitChar : ∀ d < 16, hexDigVal (digitChar d) = some d := by decide

theorem hexParseGo_append (acc : ℕ) (xs ys : List Char) :
    hexParseGo acc (xs ++ ys) =
      match hexParseGo acc xs with
      | some v => hexParseGo v ys
      | none => none := by
  induction xs generalizing acc with
  | nil => simp [hexParseGo]
  | cons c r ih =>
    simp only [List.cons_append, hexParseGo]
    cases hexDigVal c with
    | none => rfl
    | some d => exact ih _

theorem natDigitsAux_ne_nil (base fuel n : ℕ) (h : 0 < fuel) :
    natDigitsAux base fuel n ≠ [] := by
  cases fuel with
  | zero => omega
  | succ f =>
    simp only [natDigitsAux]
    split
    · simp
    · simp

theorem hexParseGo_natDigitsAux (fuel : ℕ) :
    ∀ n acc, n < fuel →
      hexParseGo acc (natDigitsAux 16 fuel n) =
        some (acc * 16 ^ (natDigitsAux 16 fuel n).length + n) := by
  induction fuel with
  | zero => intro n acc h; omega
  | succ f ih =>
    intro n acc h
    simp only [natDigitsAux]
    by_cases hn : n < 16
    · simp only [if_pos hn, hexParseGo, hexDigVal_digitChar n hn]
      simp [Nat.mul_comm]
    · simp only [if_neg hn]
      rw [hexParseGo_append]
      have hdiv : n / 16 < f := by
        have h1 : n / 16 < n := Nat.div_lt_self (by omega) (by omega)
        omega
      rw [ih (n / 16) acc hdiv]
      have hm : n % 16 < 16 := Nat.mod_lt _ (by omega)
      simp only [hexParseGo, hexDigVal_digitChar _ hm, List.length_append,
        List.length_singleton]
      congr 1
      rw [pow_succ, ← mul_assoc]
      set t := acc * 16 ^ (natDigitsAux 16 f (n / 16)).length with ht
      omega

/-- Parsing inverts printing: `hexParse (natToHex n) = some n`. -/
theorem hexParse_natToHex (n : ℕ) : hexParse (natToHex n) = some n := by
  unfold hexParse natToHex
  have hne := natDigitsAux_ne_nil 16 (n + 1) n (by omega)
  have hgo := hexParseGo_natDigitsAux (n + 1) n 0 (by omega)
  rw [if_neg (by simpa [List.isEmpty_iff] using hne), hgo]
  simp

theorem hexParseGo_bytesToHex (bs : List ℕ) :
    ∀ acc, (∀ b ∈ bs, b < 256) →
      hexParseGo acc (bytesToHex bs) = some (bytesToNatGo acc bs) := by
  induction bs with
  | nil => intro acc _; simp [bytesToHex, hexParseGo, bytesToNatGo]
  | cons b r ih =>
    intro acc hb
    have hblt : b < 256 := hb b (List.mem_cons_self b r)
    have h1 : b / 16 < 16 := by omega
    have h2 : b % 16 < 16 := Nat.mod_lt _ (by omega)
    simp only [bytesToHex, List.flatMap_cons, List.cons_append, List.nil_append,
      hexParseGo, hexDigVal_digitChar _ h1, hexDigVal_digitChar _ h2]
    have : 16 * (16 * acc + b / 16) + b % 16 = 256 * acc + b := by omega
    rw [this]
    have := ih (256 * acc + b) (fun x hx => hb x (List.mem_cons_of_mem _ hx))
    simpa [bytesToHex, bytesToNatGo] using this

/-- Parsing the hex rendering of a non-empty byte list yields its big-endian
value. -/
theorem hexParse_bytesToHex (bs : List ℕ) (hne : bs ≠ [])
    (hb : ∀ b ∈ bs, b < 256) : hexParse (bytesToHex bs) = some (bytesToNat bs) := by
  unfold hexParse bytesToNat
  rw [if_neg ?_, hexParseGo_bytesToHex bs 0 hb]
  cases bs with
  | nil => exact absurd rfl hne
  | cons b r => simp [bytesToHex]

theorem bytesToHex_length (bs : List ℕ) : (bytesToHex bs).length = 2 * bs.length := by
  induction bs with
  | nil => simp [bytesToHex]
  | cons b r ih => simp [bytesToHex] at ih ⊢; omega

/- ### Interface facts of the digest and encoding models -/

theorem sha256Bytes_length (msg : List ℕ) : (sha256Bytes msg).length = 32 := by
  simp [sha256Bytes]

theorem sha512Bytes_length (msg : List ℕ) : (sha512Bytes msg).length = 64 := by
  simp [sha512Bytes]

theorem sha256Bytes_lt (msg : List ℕ) : ∀ b ∈ sha256Bytes msg, b < 256 := by
  intro b hb
  simp only [sha256Bytes, List.mem_map] at hb
  obtain ⟨i, _, rfl⟩ := hb
  exact Nat.mod_lt _ (by omega)

theorem sha512Bytes_lt (msg : List ℕ) : ∀ b ∈ sha512Bytes msg, b < 256 := by
  intro b hb
  simp only [sha512Bytes, List.mem_map] at hb
  obtain ⟨i, _, rfl⟩ := hb
  exact Nat.mod_lt _ (by omega)

theorem utf8Char_lt (c : Char) : ∀ b ∈ utf8Char c, b < 256 := by
  intro b hb
  have hc : c.toNat < 1114112 := by
    rcases c.valid with h | h
    · exact lt_trans h (by norm_num)
    · exact h.2
  simp only [utf8Char] at hb
  by_cases h1 : c.toNat < 128
  · simp [h1] at hb; omega
  · by_cases h2 : c.toNat < 2048
    · simp [h1, h2] at hb; rcases hb with rfl | rfl <;> omega
    · by_cases h3 : c.toNat < 65536
      · simp [h1, h2, h3] at hb; rcases hb with rfl | rfl | rfl <;> omega
      · simp [h1, h2, h3] at hb; rcases hb with rfl | rfl | rfl | rfl <;> omega

theorem utf8Char_ne_nil (c : Char) : utf8Char c ≠ [] := by
  simp only [utf8Char]
  by_cases h1 : c.toNat < 128
  · simp [h1]
  · by_cases h2 : c.toNat < 2048
    · simp [h1, h2]
    · by_cases h3 : c.toNat < 65536 <;> simp [h1, h2, h3]

theorem utf8Encode_lt (s : List Char) : ∀ b ∈ utf8Encode s, b < 256 := by
  intro b hb
  simp only [utf8Encode, List.mem_flatMap] at hb
  obtain ⟨c, _, hc⟩ := hb
  exact utf8Char_lt c b hc

theorem utf8Encode_nil_iff (s : List Char) : utf8Encode s = [] ↔ s = [] := by
  cases s with
  | nil => simp [utf8Encode]
  | cons c r =>
    simp only [utf8Encode, List.flatMap_cons, List.append_eq_nil]
    constructor
    · intro h; exact absurd h.1 (utf8Char_ne_nil c)
    · intro h; exact absurd h (by simp)

/- ### Base64 lemmas -/

theorem b64Val_b64Char : ∀ v < 64, b64Val (b64Char v) = some v := by decide

theorem b64Char_mem (v : ℕ) : b64Char v ∈ b64AlphabetChars := by
  unfold b64Char List.getD
  rcases h : b64AlphabetChars.get? v with _ | c
  · decide
  · simpa using List.get?_mem h

theorem b64Char_ne_colon (v : ℕ) : b64Char v ≠ ':' := by
  have h := b64Char_mem v
  intro hc
  rw [hc] at h
  revert h
  decide

theorem b64Vals_lt (bs : List ℕ) (hb : ∀ b ∈ bs, b < 256) : ∀ v ∈ b64Vals bs, v < 64 := by
  induction bs using b64Vals.induct with
  | case1 b0 b1 b2 rest ih =>
    have h0 := hb b0 (by simp)
    have h1 := hb b1 (by simp)
    have h2 := hb b2 (by simp)
    intro v hv
    simp only [b64Vals, List.mem_cons] at hv
    rcases hv with rfl | rfl | rfl | rfl | hv
    · omega
    · omega
    · omega
    · omega
    · exact ih (fun x hx => hb x (by simp [hx])) v hv
  | case2 b0 b1 =>
    have h0 := hb b0 (by simp)
    have h1 := hb b1 (by simp)
    intro v hv
    simp only [b64Vals, List.mem_cons] at hv
    rcases hv with rfl | rfl | rfl | hv
    · omega
    · omega
    · omega
    · simp at hv
  | case3 b0 =>
    have h0 := hb b0 (by simp)
    intro v hv
    simp only [b64Vals, List.mem_cons] at hv
    rcases hv with rfl | rfl | hv
    · omega
    · omega
    · simp at hv
  | case4 => intro v hv; simp [b64Vals] at hv

theorem b64Bytes_b64Vals (bs : List ℕ) (hb : ∀ b ∈ bs, b < 256) :
    b64Bytes (b64Vals bs) = bs := by
  induction bs using b64Vals.induct with
  | case1 b0 b1 b2 rest ih =>
    have h0 := hb b0 (by simp)
    have h1 := hb b1 (by simp)
    have h2 := hb b2 (by simp)
    simp only [b64Vals, b64Bytes]
    rw [ih (fun x hx => hb x (by simp [hx]))]
    simp only [List.cons.injEq]
    refine ⟨by omega, by omega, by omega, trivial⟩
  | case2 b0 b1 =>
    have h0 := hb b0 (by simp)
    have h1 := hb b1 (by simp)
    simp only [b64Vals, b64Bytes]
    simp only [List.cons.injEq]
    refine ⟨by omega, by omega, trivial⟩
  | case3 b0 =>
    have h0 := hb b0 (by simp)
    simp only [b64Vals, b64Bytes]
    simp only [List.cons.injEq]
    refine ⟨by omega, trivial⟩
  | case4 => rfl

theorem filterMap_b64Val_map (vals : List ℕ) (h : ∀ v ∈ vals, v < 64) :
    (vals.map b64Char).filterMap b64Val = vals := by
  induction vals with
  | nil => rfl
  | cons v r ih =>
    simp only [List.map_cons, List.filterMap_cons,
      b64Val_b64Char v (h v (by simp))]
    rw [ih (fun x hx => h x (by simp [hx]))]

theorem filterMap_b64Val_pad (k : ℕ) :
    (List.replicate k '=').filterMap b64Val = [] := by
  induction k with
  | zero => rfl
  | succ n ih =>
    rw [List.replicate_succ, List.filterMap_cons]
    have hpad : b64Val '=' = none := by decide
    rw [hpad, ih]

/-- The decode model inverts the encode model on byte lists. -/
theorem nodeB64Decode_base64Encode (bs : List ℕ) (hb : ∀ b ∈ bs, b < 256) :
    nodeB64Decode (base64Encode bs) = bs := by
  unfold nodeB64Decode base64Encode
  rw [List.filterMap_append, filterMap_b64Val_map _ (b64Vals_lt bs hb),
    filterMap_b64Val_pad, List.append_nil]
  exact b64Bytes_b64Vals bs hb

theorem base64Encode_no_colon (bs : List ℕ) : ':' ∉ base64Encode bs := by
  unfold base64Encode
  intro h
  rcases List.mem_append.mp h with h | h
  · obtain ⟨v, _, hv⟩ := List.mem_map.mp h
    exact b64Char_ne_colon v hv
  · have := List.eq_of_mem_replicate h
    simp at this

theorem b64Vals_ne_nil (bs : List ℕ) (h : bs ≠ []) : b64Vals bs ≠ [] := by
  match bs with
  | [] => exact absurd rfl h
  | [b0] => simp [b64Vals]
  | [b0, b1] => simp [b64Vals]
  | b0 :: b1 :: b2 :: rest => simp [b64Vals]

theorem base64Encode_nil_iff (bs : List ℕ) : base64Encode bs = [] ↔ bs = [] := by
  constructor
  · intro h
    by_contra hne
    have h1 := b64Vals_ne_nil bs hne
    unfold base64Encode at h
    rcases List.append_eq_nil.mp h with ⟨h2, _⟩
    exact h1 (List.map_eq_nil_iff.mp h2)
  · intro h; subst h; rfl

/- ### Splitting lemmas -/

theorem splitOnChar_ne_nil (sep : Char) (s : List Char) : splitOnChar sep s ≠ [] := by
  cases s with
  | nil => simp [splitOnChar]
  | cons c rest =>
    simp only [splitOnChar]
    split
    · simp
    · rcases h : splitOnChar sep rest with _ | ⟨p, ps⟩ <;> simp

theorem splitOnChar_no_sep (sep : Char) (s : List Char) (h : sep ∉ s) :
    splitOnChar sep s = [s] := by
  induction s with
  | nil => rfl
  | cons c rest ih =>
    have hc : ¬ c = sep := fun hcs => h (by simp [hcs])
    simp only [splitOnChar, if_neg hc]
    rw [ih (fun hm => h (by simp [hm]))]

theorem splitOnChar_append (sep : Char) (a l : List Char) (h : sep ∉ a) :
    splitOnChar sep (a ++ sep :: l) = a :: splitOnChar sep l := by
  induction a with
  | nil => simp [splitOnChar]
  | cons c r ih =>
    have hc : ¬ c = sep := fun hcs => h (by simp [hcs])
    simp only [List.cons_append, splitOnChar, if_neg hc, List.append_eq]
    rw [ih (fun hm => h (by simp [hm]))]

/- ### Cipher-model lemmas -/

theorem ksByte_lt (key iv : List ℕ) (i : ℕ) : ksByte key iv i < 256 :=
  Nat.mod_lt _ (by omega)

theorem xorStream_length (key iv : List ℕ) :
    ∀ i bs, (xorStream key iv i bs).length = bs.length := by
  intro i bs
  induction bs generalizing i with
  | nil => rfl
  | cons b r ih => simp [xorStream, ih]

theorem xor_cancel (b k : ℕ) : (b ^^^ k) ^^^ k = b := by
  rw [Nat.xor_assoc, Nat.xor_self, Nat.xor_zero]

theorem xorStream_involutive (key iv : List ℕ) :
    ∀ i bs, xorStream key iv i (xorStream key iv i bs) = bs := by
  intro i bs
  induction bs generalizing i with
  | nil => rfl
  | cons b r ih => simp [xorStream, ih, xor_cancel]

theorem xorStream_lt (key iv : List ℕ) :
    ∀ i bs, (∀ b ∈ bs, b < 256) → ∀ b ∈ xorStream key iv i bs, b < 256 := by
  intro i bs
  induction bs generalizing i with
  | nil => intro _ b hb; simp [xorStream] at hb
  | cons x r ih =>
    intro h b hb
    simp only [xorStream, List.mem_cons] at hb
    rcases hb with rfl | hb
    · have h1 : x < 2 ^ 8 := h x (by simp)
      have h2 : ksByte key iv i < 2 ^ 8 := ksByte_lt key iv i
      exact Nat.xor_lt_two_pow h1 h2
    · exact ih (i + 1) (fun y hy => h y (by simp [hy])) b hb

theorem xorStream_nil_iff (key iv : List ℕ) (i : ℕ) (bs : List ℕ) :
    xorStream key iv i bs = [] ↔ bs = [] := by
  cases bs <;> simp [xorStream]

theorem gcmTag_length (key iv ct : List ℕ) : (gcmTag key iv ct).length = 16 := by
  simp [gcmTag]

theorem gcmTag_lt (key iv ct : List ℕ) : ∀ b ∈ gcmTag key iv ct, b < 256 := by
  intro b hb
  simp only [gcmTag, List.mem_map] at hb
  obtain ⟨j, _, rfl⟩ := hb
  exact Nat.mod_lt _ (by omega)

/-- Decryption with the matching tag restores the plaintext bytes. -/
theorem gcmDecrypt_gcmEncrypt (key iv pt : List ℕ) :
    gcmDecrypt key iv (gcmEncryptBytes key iv pt) (gcmTag key iv (gcmEncryptBytes key iv pt)) =
      some pt := by
  unfold gcmDecrypt gcmEncryptBytes
  rw [if_pos rfl, xorStream_involutive]

/-- Decryption with any other tag fails. -/
theorem gcmDecrypt_wrong_tag (key iv ct tag : List ℕ) (h : tag ≠ gcmTag key iv ct) :
    gcmDecrypt key iv ct tag = none := by
  unfold gcmDecrypt
  rw [if_neg h]

/- ### Facts about the derived key and the wire segments -/

theorem digitChar_hexByte : ∀ d < 16, isHexDigitByte (digitChar d).toNat = true := by decide

theorem bytesToHex_hexDigits (bs : List ℕ) (hb : ∀ b ∈ bs, b < 256) :
    ∀ c ∈ bytesToHex bs, isHexDigitByte c.toNat = true := by
  intro c hc
  simp only [bytesToHex, List.mem_flatMap] at hc
  obtain ⟨b, hbmem, hcm⟩ := hc
  have hblt := hb b hbmem
  simp only [List.mem_cons] at hcm
  rcases hcm with rfl | rfl | h
  · exact digitChar_hexByte (b / 16) (by omega)
  · exact digitChar_hexByte (b % 16) (by omega)
  · simp at h

theorem hexDigitByte_ascii (b : ℕ) (h : isHexDigitByte b = true) : b < 128 := by
  simp only [isHexDigitByte, Bool.or_eq_true, Bool.and_eq_true, decide_eq_true_eq] at h
  omega

theorem utf8Encode_ascii (s : List Char) (h : ∀ c ∈ s, c.toNat < 128) :
    utf8Encode s = s.map Char.toNat := by
  induction s with
  | nil => rfl
  | cons c r ih =>
    have hc : c.toNat < 128 := h c (by simp)
    have hcc : utf8Char c = [c.toNat] := by
      unfold utf8Char
      rw [if_pos hc]
    simp only [utf8Encode, List.flatMap_cons, hcc, List.map_cons, List.cons_append,
      List.nil_append, List.cons.injEq]
    exact ⟨trivial, ih (fun x hx => h x (by simp [hx]))⟩

theorem ctSegment_no_colon (pt pw : List Char) (iv : List ℕ) : ':' ∉ ctSegment pt pw iv := by
  unfold ctSegment; exact base64Encode_no_colon _

theorem ivSegment_no_colon (iv : List ℕ) : ':' ∉ ivSegment iv := by
  unfold ivSegment; exact base64Encode_no_colon _

theorem tagSegment_no_colon (pt pw : List Char) (iv : List ℕ) : ':' ∉ tagSegment pt pw iv := by
  unfold tagSegment; exact base64Encode_no_colon _

theorem splitOnChar_segments (a b t : List Char) (ha : ':' ∉ a) (hb : ':' ∉ b) (ht : ':' ∉ t) :
    splitOnChar ':' (a ++ ':' :: b ++ ':' :: t) = [a, b, t] := by
  have h1 : a ++ ':' :: b ++ ':' :: t = a ++ ':' :: (b ++ ':' :: t) := by simp
  rw [h1, splitOnChar_append ':' a _ ha, splitOnChar_append ':' b _ hb,
    splitOnChar_no_sep ':' t ht]

theorem decode_ctSegment (pt pw : List Char) (iv : List ℕ) :
    nodeB64Decode (ctSegment pt pw iv) =
      gcmEncryptBytes (keyFromPassword pw) iv (utf8Encode pt) := by
  unfold ctSegment
  exact nodeB64Decode_base64Encode _
    (xorStream_lt _ _ 0 _ (utf8Encode_lt pt))

theorem decode_ivSegment (iv : List ℕ) (hiv : ∀ x ∈ iv, x < 256) :
    nodeB64Decode (ivSegment iv) = iv := by
  unfold ivSegment
  exact nodeB64Decode_base64Encode _ hiv

theorem decode_tagSegment (pt pw : List Char) (iv : List ℕ) :
    nodeB64Decode (tagSegment pt pw iv) =
      gcmTag (keyFromPassword pw) iv (gcmEncryptBytes (keyFromPassword pw) iv (utf8Encode pt)) := by
  unfold tagSegment
  exact nodeB64Decode_base64Encode _ (gcmTag_lt _ _ _)

/- ### Reduction lemmas for the DH operations -/

theorem computeSharedSecret_eval (a bPub : ℕ) (pw : Option (List Char)) :
    computeSharedSecret (natToHex a) (natToHex bPub) pw =
      match pw with
      | some p => .ok (bytesToHex (sha512Bytes
          ((dartHexToBytes (natToHex (modPow bPub a dhPrime))).getD [] ++ utf8Encode p)))
      | none => .ok (bytesToHex (sha256Bytes
          ((dartHexToBytes (natToHex (modPow bPub a dhPrime))).getD []))) := by
  unfold computeSharedSecret
  rw [hexParse_natToHex, hexParse_natToHex]

theorem sha256Bytes_ne_nil (msg : List ℕ) : sha256Bytes msg ≠ [] := by
  intro h
  have hl := sha256Bytes_length msg
  rw [h] at hl
  simp at hl

/-- C2: shared-secret symmetry.  For key pairs `(a, g^a mod p)` and
`(b, g^b mod p)` with private keys in the range `generateDHKeyPair`
produces, `computeSharedSecret(a, B, pw?) = computeSharedSecret(b, A, pw?)`,
both without a password and with any common password. -/
theorem c2_computeSharedSecret_symmetric (a b : ℕ) (pw : Option (List Char))
    (_ha : 1 < a ∧ a < dhPrime) (_hb : 1 < b ∧ b < dhPrime) :
    computeSharedSecret (natToHex a) (natToHex (modPow dhGenerator b dhPrime)) pw =
      computeSharedSecret (natToHex b) (natToHex (modPow dhGenerator a dhPrime)) pw := by
  have key : modPow (modPow dhGenerator b dhPrime) a dhPrime
      = modPow (modPow dhGenerator a dhPrime) b dhPrime := by
    unfold modPow
    rw [← Nat.pow_mod, ← Nat.pow_mod, ← pow_mul, ← pow_mul, Nat.mul_comm]
  rw [computeSharedSecret_eval, computeSharedSecret_eval, key]

/-- Witness for C2 at the concrete in-range private keys 2 and 3. -/
theorem c2_witness :
    ((1 < 2 ∧ 2 < dhPrime) ∧ (1 < 3 ∧ 3 < dhPrime)) ∧
    computeSharedSecret (natToHex 2) (natToHex (modPow dhGenerator 3 dhPrime)) none =
      computeSharedSecret (natToHex 3) (natToHex (modPow dhGenerator 2 dhPrime)) none :=
  ⟨⟨by decide, by decide⟩,
    c2_computeSharedSecret_symmetric 2 3 none (by decide) (by decide)⟩

theorem derivedKey_facts (msg : List ℕ) :
    utf8Encode ((bytesToHex (sha512Bytes msg)).take 32) =
      ((bytesToHex (sha512Bytes msg)).take 32).map Char.toNat ∧
    (utf8Encode ((bytesToHex (sha512Bytes msg)).take 32)).length = 32 ∧
    ∀ b ∈ utf8Encode ((bytesToHex (sha512Bytes msg)).take 32), isHexDigitByte b = true := by
  have hhex : ∀ c ∈ (bytesToHex (sha512Bytes msg)).take 32, isHexDigitByte c.toNat = true :=
    fun c hc => bytesToHex_hexDigits _ (sha512Bytes_lt msg) c (List.mem_of_mem_take hc)
  have hascii : ∀ c ∈ (bytesToHex (sha512Bytes msg)).take 32, c.toNat < 128 :=
    fun c hc => hexDigitByte_ascii _ (hhex c hc)
  have henc := utf8Encode_ascii _ hascii
  refine ⟨henc, ?_, ?_⟩
  · rw [henc, List.length_map, List.length_take, bytesToHex_length, sha512Bytes_length]
    omega
  · intro b hb
    rw [henc] at hb
    obtain ⟨c, hc, rfl⟩ := List.mem_map.mp hb
    exact hhex c hc

/-- C3: the AES-256 key of every encrypt/decrypt operation is the UTF-8
bytes of the first 32 characters of the lowercase hex SHA-512 digest of the
secret material — in password mode the UTF-8 password bytes, in
shared-secret mode the hex-decoded shared-secret string — hence 32 bytes
long, every byte the ASCII code of a hex digit (not raw digest bytes). -/
theorem c3_key_from_hex_digest_chars (pw s : List Char) :
    keyFromPassword pw = ((bytesToHex (sha512Bytes (utf8Encode pw))).take 32).map Char.toNat ∧
    keyFromSecret s = ((bytesToHex (sha512Bytes (nodeHexBytes s))).take 32).map Char.toNat ∧
    (keyFromPassword pw).length = 32 ∧
    (keyFromSecret s).length = 32 ∧
    (∀ b ∈ keyFromPassword pw, isHexDigitByte b = true) ∧
    (∀ b ∈ keyFromSecret s, isHexDigitByte b = true) := by
  obtain ⟨h1, h2, h3⟩ := derivedKey_facts (utf8Encode pw)
  obtain ⟨h4, h5, h6⟩ := derivedKey_facts (nodeHexBytes s)
  exact ⟨h1, h4, h2, h5, h3, h6⟩

/-- C4 counterexample: `otherPublicKey = 1` lies outside `(1, prime)`, yet
`computeSharedSecret` succeeds and returns a secret instead of failing with
an `InvalidKey` error. -/
theorem c4_cex_public_key_one_accepted :
    (¬ (1 < 1 ∧ 1 < dhPrime)) ∧
    exceptOk (computeSharedSecret (natToHex 5) (natToHex 1) none) = true :=
  ⟨by decide, by decide⟩

/-- C4 (amended): `computeSharedSecret` performs no public-key range
validation at all — for every hex-encoded private key and public key, in
range or not, it succeeds and returns the hashed secret; no `InvalidKey`
failure exists. -/
theorem c4_amended_no_validation (a bPub : ℕ) (pw : Option (List Char)) :
    exceptOk (computeSharedSecret (natToHex a) (natToHex bPub) pw) = true := by
  rw [computeSharedSecret_eval]
  cases pw <;> rfl

/-- C5 counterexample: the Node implementation installs the raw SHA-256
digest as the enhanced private key, so the private key it returns differs
from the claimed `SHA256(privateKeyBytes || passwordHash) mod (prime-1) + 1`
already at private-key bytes `[2]`, password `"x"`, time `0`. -/
theorem c5_cex_node_no_reduction :
    hexParse (nodeGenerateDHKeyPairEnhanced [2] ("x".data) 0).privateKey ≠
      some (bytesToNat (sha256Bytes ([2] ++ sha256Bytes (utf8Encode ("x".data ++ natToDec 0)))) %
        (dhPrime - 1) + 1) := by decide

/-- C5 (amended): the Dart implementation fulfills the claimed formula — the
returned private key is `SHA256(privateKeyBytes || passwordHash) mod
(prime-1) + 1` with `passwordHash = SHA256(password || currentTimeMillis)`,
and the public key is `generator ^ enhancedPrivateKey mod prime` recomputed
from it; the Node implementation instead keeps the raw SHA-256 digest as
the private key, skipping the `mod (prime-1) + 1` reduction. -/
theorem c5_amended_dart_formula (priv : ℕ) (pw : List Char) (t : ℕ) :
    generateDHKeyPairEnhanced priv pw t =
      { privateKey := natToHex
          (bytesToNat (sha256Bytes (dartPrivBytes priv ++
            sha256Bytes (utf8Encode (pw ++ natToDec t)))) % (dhPrime - 1) + 1)
        publicKey := natToHex (modPow dhGenerator
          (bytesToNat (sha256Bytes (dartPrivBytes priv ++
            sha256Bytes (utf8Encode (pw ++ natToDec t)))) % (dhPrime - 1) + 1) dhPrime) } := by
  simp only [generateDHKeyPairEnhanced]
  have hlen : (bytesToHex (sha256Bytes (dartPrivBytes priv ++
      sha256Bytes (utf8Encode (pw ++ natToDec t))))).length = 64 := by
    rw [bytesToHex_length, sha256Bytes_length]
  rw [List.take_of_length_le (le_of_eq hlen)]
  rw [hexParse_bytesToHex _ (sha256Bytes_ne_nil _) (sha256Bytes_lt _)]
  rfl

/-- C1: code bug — the backend `encrypt` of `src/encryption.ts` omits the
JSON serialization that the spec, the repository's own documentation and
`decrypt`'s final `JSON.parse` assume, so the password-cipher round trip
fails at the spec's own concrete scenario: decrypting the encryption of
`"Hello World!"` under password `"test-password-123"` ends in a JSON parse
error instead of returning the plaintext. -/
theorem c1_roundtrip_fails_with_json_error :
    decrypt (encrypt ("Hello World!".data) ("test-password-123".data) testIV)
      ("test-password-123".data) = .error .JsonError := rfl

/-- C6: code bug — the byte stream the backend `encrypt` feeds the cipher
is the raw UTF-8 plaintext, not the UTF-8 encoding of a JSON value:
deciphering the produced CipherText restores exactly `Hello World!`, a text
that `JSON.parse` rejects. -/
theorem c6_encrypted_stream_not_json :
    decryptToText (encrypt ("Hello World!".data) ("test-password-123".data) testIV)
      ("test-password-123".data) = .ok ("Hello World!".data) ∧
    jsonParse ("Hello World!".data) = none :=
  ⟨rfl, rfl⟩

/-- C7 counterexample: flipping ASCII bit 1 of character 21 of the auth-tag
segment — a bit among the four that the final data character of the base64
encoding of a 16-byte tag does not use and that Node's lenient decoder
discards — yields a genuinely different CipherText string whose decryption
succeeds and returns the original plaintext instead of raising
`AuthenticationError`. -/
theorem c7_cex_padding_bit_flip_accepted :
    flipTagBit (encrypt ("\"hi\"".data) ("test-password-123".data) testIV) 21 1 ≠
      encrypt ("\"hi\"".data) ("test-password-123".data) testIV ∧
    decrypt (flipTagBit (encrypt ("\"hi\"".data) ("test-password-123".data) testIV) 21 1)
      ("test-password-123".data) = .ok (Json.str ("hi".data)) :=
  ⟨by decide, rfl⟩

/-- C7 (amended): tampering with the auth-tag segment is detected exactly
when it changes the bytes the segment decodes to: replacing the tag segment
by any colon-free string whose lenient base64 decoding is a 16-byte value
different from the real tag makes `decrypt` fail with `AuthenticationError`
and return no plaintext.  Single-bit flips that leave the decoded bytes
unchanged — flips within the discarded trailing bits of the final base64
character — make `decrypt` return the original plaintext instead. -/
theorem c7_amended_changed_tag_rejected (pt pw t' : List Char) (iv : List ℕ)
    (hiv : ∀ x ∈ iv, x < 256) (hc : ':' ∉ t')
    (_hlen : (nodeB64Decode t').length = 16)
    (hd : nodeB64Decode t' ≠ nodeB64Decode (tagSegment pt pw iv)) :
    decrypt (ctSegment pt pw iv ++ ':' :: ivSegment iv ++ ':' :: t') pw =
      .error .AuthenticationError := by
  unfold decrypt decryptToText
  rw [splitOnChar_segments _ _ _ (ctSegment_no_colon pt pw iv) (ivSegment_no_colon iv) hc]
  dsimp only
  rw [decode_tagSegment] at hd
  rw [decode_ctSegment, decode_ivSegment iv hiv, gcmDecrypt_wrong_tag _ _ _ _ hd]

/-- Witness for C7 (amended): changing the first character of the tag
segment of a concrete CipherText changes the decoded tag, and decryption
rejects it with `AuthenticationError`. -/
theorem c7_amended_witness :
    ((∀ x ∈ testIV, x < 256) ∧ ':' ∉ "mU39rV0NvW0dzX0t3Y097Q==".data ∧
      (nodeB64Decode ("mU39rV0NvW0dzX0t3Y097Q==".data)).length = 16 ∧
      nodeB64Decode ("mU39rV0NvW0dzX0t3Y097Q==".data) ≠
        nodeB64Decode (tagSegment ("\"hi\"".data) ("test-password-123".data) testIV)) ∧
    decrypt (ctSegment ("\"hi\"".data) ("test-password-123".data) testIV ++
        ':' :: ivSegment testIV ++ ':' :: "mU39rV0NvW0dzX0t3Y097Q==".data)
      ("test-password-123".data) = .error .AuthenticationError :=
  ⟨⟨by decide, by decide, by decide, by decide⟩,
    c7_amended_changed_tag_rejected ("\"hi\"".data) ("test-password-123".data)
      ("mU39rV0NvW0dzX0t3Y097Q==".data) testIV (by decide) (by decide) (by decide) (by decide)⟩

/-- C8 counterexample: encrypting the empty plaintext produces a CipherText
whose first segment is empty — the string still splits into three parts,
but not into three non-empty segments as claimed. -/
theorem c8_cex_empty_first_segment :
    (splitOnChar ':' (encrypt ("".data) ("pw".data) testIV)).length = 3 ∧
    (splitOnChar ':' (encrypt ("".data) ("pw".data) testIV)).headD [' '] = [] :=
  ⟨rfl, rfl⟩

/-- C8 (amended): every `encrypt` output under a 16-byte IV splits on ':'
into exactly the three segments `ciphertext`, `iv`, `authTag` and contains
exactly two ':' characters; the second segment decodes to the 16-byte IV
and the third to the 16-byte tag, and both are non-empty; the first segment
is empty exactly when the plaintext is empty (and is otherwise
non-empty). -/
theorem c8_amended_wire_format (pt pw : List Char) (iv : List ℕ)
    (hlen : iv.length = 16) (hiv : ∀ x ∈ iv, x < 256) :
    splitOnChar ':' (encrypt pt pw iv) =
      [ctSegment pt pw iv, ivSegment iv, tagSegment pt pw iv] ∧
    (encrypt pt pw iv).count ':' = 2 ∧
    ivSegment iv ≠ [] ∧
    tagSegment pt pw iv ≠ [] ∧
    (nodeB64Decode (ivSegment iv)).length = 16 ∧
    (nodeB64Decode (tagSegment pt pw iv)).length = 16 ∧
    (ctSegment pt pw iv = [] ↔ pt = []) := by
  have hsplit : splitOnChar ':' (encrypt pt pw iv) =
      [ctSegment pt pw iv, ivSegment iv, tagSegment pt pw iv] := by
    unfold encrypt
    exact splitOnChar_segments _ _ _ (ctSegment_no_colon pt pw iv) (ivSegment_no_colon iv)
      (tagSegment_no_colon pt pw iv)
  have hc1 := List.count_eq_zero.mpr (ctSegment_no_colon pt pw iv)
  have hc2 := List.count_eq_zero.mpr (ivSegment_no_colon iv)
  have hc3 := List.count_eq_zero.mpr (tagSegment_no_colon pt pw iv)
  have hivne : iv ≠ [] := by intro h; rw [h] at hlen; simp at hlen
  have htagne : gcmTag (keyFromPassword pw) iv
      (gcmEncryptBytes (keyFromPassword pw) iv (utf8Encode pt)) ≠ [] := by
    intro h
    have := gcmTag_length (keyFromPassword pw) iv
      (gcmEncryptBytes (keyFromPassword pw) iv (utf8Encode pt))
    rw [h] at this
    simp at this
  refine ⟨hsplit, ?_, ?_, ?_, ?_, ?_, ?_⟩
  · unfold encrypt
    simp [List.count_append, List.count_cons, hc1, hc2, hc3]
  · intro h
    exact hivne ((base64Encode_nil_iff iv).mp h)
  · intro h
    exact htagne ((base64Encode_nil_iff _).mp h)
  · rw [decode_ivSegment iv hiv, hlen]
  · rw [decode_tagSegment, gcmTag_length]
  · unfold ctSegment gcmEncryptBytes
    rw [base64Encode_nil_iff, xorStream_nil_iff, utf8Encode_nil_iff]

/-- Witness for C8 (amended) at a concrete plaintext, password and IV. -/
theorem c8_amended_witness :
    (testIV.length = 16 ∧ ∀ x ∈ testIV, x < 256) ∧
    (splitOnChar ':' (encrypt ("a".data) ("pw".data) testIV) =
      [ctSegment ("a".data) ("pw".data) testIV, ivSegment testIV,
        tagSegment ("a".data) ("pw".data) testIV] ∧
    (encrypt ("a".data) ("pw".data) testIV).count ':' = 2 ∧
    ivSegment testIV ≠ [] ∧
    tagSegment ("a".data) ("pw".data) testIV ≠ [] ∧
    (nodeB64Decode (ivSegment testIV)).length = 16 ∧
    (nodeB64Decode (tagSegment ("a".data) ("pw".data) testIV)).length = 16 ∧
    (ctSegment ("a".data) ("pw".data) testIV = [] ↔ "a".data = [])) :=
  ⟨⟨by decide, by decide⟩,
    c8_amended_wire_format ("a".data) ("pw".data) testIV (by decide) (by decide)⟩

/- ### Support lemmas for validatePublicKey -/

theorem dartHexPairVal_none_right (c1 c2 : Char) (h : hexDigVal c2 = none) :
    dartHexPairVal c1 c2 = none := by
  unfold dartHexPairVal
  rw [h]
  split
  · rfl
  · split
    · rfl
    · rcases h1 : hexDigVal c1 with _ | v <;> rfl

theorem dartHexPairVal_none_left (c1 c2 : Char) (h : hexDigVal c1 = none)
    (hm : c1 ≠ '-') (hp : c1 ≠ '+') : dartHexPairVal c1 c2 = none := by
  unfold dartHexPairVal
  rw [if_neg hm, if_neg hp, h]

theorem dartHexPairsGo_pair_none (c1 c2 : Char) (r : List Char)
    (h : dartHexPairVal c1 c2 = none) : dartHexPairsGo (c1 :: c2 :: r) = none := by
  unfold dartHexPairsGo
  rw [h]

theorem dartHexPairsGo_rest_none (c1 c2 : Char) (r : List Char)
    (h : dartHexPairsGo r = none) : dartHexPairsGo (c1 :: c2 :: r) = none := by
  unfold dartHexPairsGo
  rw [h]
  rcases hp : dartHexPairVal c1 c2 with _ | v <;> rfl

theorem isHexLikeChar_false_elim (c : Char) (h : isHexLikeChar c = false) :
    hexDigVal c = none ∧ c ≠ '-' ∧ c ≠ '+' := by
  unfold isHexLikeChar at h
  rcases h1 : hexDigVal c with _ | v
  · rw [h1] at h
    simp only [Option.isSome_none, Bool.false_or, Bool.or_eq_false_iff,
      decide_eq_false_iff_not] at h
    exact ⟨rfl, h.1, h.2⟩
  · rw [h1] at h
    simp at h

theorem dartHexPairsGo_invalid : ∀ l : List Char,
    (∃ c ∈ l, isHexLikeChar c = false) → dartHexPairsGo l = none
  | [], h => by
    obtain ⟨c, hc, _⟩ := h
    simp at hc
  | [_], _ => rfl
  | c1 :: c2 :: r, h => by
    obtain ⟨c, hc, hbad⟩ := h
    obtain ⟨hnone, hm, hp⟩ := isHexLikeChar_false_elim c hbad
    simp only [List.mem_cons] at hc
    rcases hc with rfl | rfl | hc
    · exact dartHexPairsGo_pair_none _ _ _ (dartHexPairVal_none_left _ _ hnone hm hp)
    · exact dartHexPairsGo_pair_none _ _ _ (dartHexPairVal_none_right _ _ hnone)
    · exact dartHexPairsGo_rest_none _ _ _ (dartHexPairsGo_invalid r ⟨c, hc, hbad⟩)

/-- C9 counterexample: the 202-character string of 101 copies of `"-5"` is
not a hex string, yet each two-character chunk `"-5"` is accepted by Dart
`int.parse(radix: 16)` (optional sign) and stored as the byte 251, so the
decode yields 101 bytes and `validatePublicKey` returns `true` on a non-hex
input. -/
theorem c9_cex_signed_pairs_accepted :
    validatePublicKey (List.flatten (List.replicate 101 ("-5".data))) = true ∧
    isHexString (List.flatten (List.replicate 101 ("-5".data))) = false :=
  ⟨by decide, by decide⟩

/-- C9 (amended): `validatePublicKey` is total and returns `true` exactly
when the code's own hex decode — two characters per byte, each pair parsed
by Dart `int.parse(radix: 16)`, which also accepts a sign — succeeds with a
byte count strictly between 100 and 1000.  It returns `false` for the empty
string and for every input containing a character that is neither a hex
digit nor a sign; but sign-bearing inputs that are not plain hex can still
decode and return `true`. -/
theorem c9_amended_validate (s : List Char) :
    (validatePublicKey s = true ↔
      ∃ bs, dartHexToBytes s = some bs ∧ 100 < bs.length ∧ bs.length < 1000) ∧
    ((∃ c ∈ s, isHexLikeChar c = false) → validatePublicKey s = false) := by
  constructor
  · unfold validatePublicKey
    rcases h : dartHexToBytes s with _ | bs
    · simp
    · simp
  · intro ⟨c, hc, hbad⟩
    have hmem : c ∈ (if s.length % 2 = 1 then '0' :: s else s) := by
      split
      · exact List.mem_cons_of_mem _ hc
      · exact hc
    unfold validatePublicKey dartHexToBytes
    rw [dartHexPairsGo_invalid _ ⟨c, hmem, hbad⟩]

/-- Witness for C9 (amended): `"zz"` contains no parseable character, and
`validatePublicKey` returns `false` on it. -/
theorem c9_amended_witness :
    (∃ c ∈ "zz".data, isHexLikeChar c = false) ∧
    validatePublicKey ("zz".data) = false :=
  ⟨⟨'z', by decide, by decide⟩,
    (c9_amended_validate ("zz".data)).2 ⟨'z', by decide, by decide⟩⟩

/-- C10: every input whose split on ':' does not yield exactly three parts —
such as `"invalid-format"`, which has no colon — is rejected by `decrypt`
with `FormatError`, with no partial plaintext returned. -/
theorem c10_wrong_part_count_format_error (s pw : List Char)
    (h : (splitOnChar ':' s).length ≠ 3) :
    decrypt s pw = .error .FormatError := by
  unfold decrypt decryptToText
  rcases hs : splitOnChar ':' s with _ | ⟨a, _ | ⟨b, _ | ⟨c, _ | ⟨d, r⟩⟩⟩⟩
  · simp only [hs]
  · simp only [hs]
  · simp only [hs]
  · rw [hs] at h; simp at h
  · simp only [hs]

/-- Witness for C10 at the spec's concrete scenario `"invalid-format"`. -/
theorem c10_witness :
    (splitOnChar ':' ("invalid-format".data)).length ≠ 3 ∧
    decrypt ("invalid-format".data) ("pw".data) = .error .FormatError :=
  ⟨by decide,
    c10_wrong_part_count_format_error ("invalid-format".data) ("pw".data) (by decide)⟩
